import Mathlib

/-!
Shallow embedding of the `to_markdown_table` Rust library (`src/lib.rs`).

Cells are Lean `String`s; Rust `String::len` (UTF-8 byte count) is modelled by
`String.utf8ByteSize`, and Rust's `{text:width$}` format padding (which counts
characters) by `padTo` below. Rust `Vec<T>` is `List T`, `Option<T>` is
`Option T`, and `Result<T, MarkdownTableError>` is `Except MarkdownTableError T`.
A Rust panic (out-of-bounds index on `self.rows[0]`) is modelled by returning
`none` from the operation that can panic.
-/

/-- Errors of the library, Rust enum `MarkdownTableError`. -/
inductive MarkdownTableError where
  | InvalidRowLength (expected actual : Nat)
  | NoRowsSpecified
deriving DecidableEq, Repr

/-- Rust struct `TableRow(Vec<String>)`: the cells of one table row. -/
structure TableRow where
  cells : List String
deriving DecidableEq, Repr

namespace TableRow

/-- Rust `TableRow::new`. -/
def new (data : List String) : TableRow := ⟨data⟩

/-- Rust `TableRow::col_len`: `self.0[col].len()`, the UTF-8 byte length of the
cell at index `col`. The Rust indexing panics when `col` is out of range; that
case is modelled by the empty string (byte length 0) and is unreachable from
the rendering path, which only queries columns below the table width. -/
def col_len (r : TableRow) (col : Nat) : Nat :=
  (r.cells.getD col "").utf8ByteSize

end TableRow

/-- Rust struct `MarkdownTable`: an optional header row plus data rows. -/
structure MarkdownTable where
  header : Option TableRow
  rows : List TableRow
deriving DecidableEq, Repr

namespace MarkdownTable

/-- Rust `MarkdownTable::validate_row_length`. -/
def validate_row_length (header new_row : TableRow) :
    Except MarkdownTableError Unit :=
  let header_len := header.cells.length
  let new_len := new_row.cells.length
  if header_len ≠ new_len then
    .error (.InvalidRowLength header_len new_len)
  else
    .ok ()

/-- The validation loop of `MarkdownTable::new`: `validate_row_length` against
the fixed reference row for each row in order, propagating the first error. -/
def validateAll (reference : TableRow) :
    List TableRow → Except MarkdownTableError Unit
  | [] => .ok ()
  | r :: rs =>
    match validate_row_length reference r with
    | .error e => .error e
    | .ok _ => validateAll reference rs

/-- Rust `MarkdownTable::new`. The reference row inside the loop is
`header.clone().or_else(|| Some(rows[0].clone())).unwrap()`; when `rows` is
empty the loop body never runs, so `rows[0]` is never evaluated and the call
succeeds with an empty table. -/
def new (header : Option TableRow) (rows : List TableRow) :
    Except MarkdownTableError MarkdownTable :=
  match rows with
  | [] => .ok ⟨header, rows⟩
  | r0 :: _ =>
    match validateAll (header.getD r0) rows with
    | .error e => .error e
    | .ok _ => .ok ⟨header, rows⟩

/-- The row used as width reference by `add_row`:
`self.header.clone().or_else(|| Some(self.rows[0].clone()))`. The result is
`none` exactly when `self.rows[0]` would panic (no header, no rows). -/
def referenceRow (t : MarkdownTable) : Option TableRow :=
  match t.header with
  | some h => some h
  | none => t.rows.head?

/-- Rust `MarkdownTable::add_row`. The Rust method mutates `self` and returns
`Result<(), _>`; that is modelled by returning the table after the call next
to the result. The outer `none` models the index-out-of-bounds panic of
`self.rows[0]` on a table with no header and no rows. -/
def add_row (t : MarkdownTable) (row : TableRow) :
    Option (Except MarkdownTableError Unit × MarkdownTable) :=
  match t.referenceRow with
  | none => none
  | some ref =>
    match validate_row_length ref row with
    | .error e => some (.error e, t)
    | .ok _ => some (.ok (), ⟨t.header, t.rows ++ [row]⟩)

/-- Rust `MarkdownTable::cols`: the header's cell count, else the first data
row's. The result is `none` exactly when `self.rows[0]` would panic (no
header, no rows); rendering never calls it in that state. -/
def cols (t : MarkdownTable) : Option Nat :=
  match t.header with
  | some h => some h.cells.length
  | none => t.rows.head?.map (fun r => r.cells.length)

/-- Rust `MarkdownTable::col_len`: `None` for a column index at or beyond the
width, otherwise the fold maximising `TableRow::col_len` over the data rows,
widened to the header cell's byte length when a header is present. `none` is
also returned where Rust `self.cols()` would panic (unreachable from `fmt`). -/
def col_len (t : MarkdownTable) (col : Nat) : Option Nat :=
  match t.cols with
  | none => none
  | some c =>
    if c ≤ col then
      none
    else
      let body := t.rows.foldl
        (fun acc curr => if acc < curr.col_len col then curr.col_len col else acc) 0
      match t.header with
      | some header =>
        if (header.cells.getD col "").utf8ByteSize < body then some body
        else some (header.cells.getD col "").utf8ByteSize
      | none => some body

/-- Rust `{text:width$}` string formatting: left-aligned, filled with spaces on
the right up to `width` characters (saturating when the text is longer). -/
def padTo (text : String) (width : Nat) : String :=
  text.pushn ' ' (width - text.length)

/-- Rust `MarkdownTable::fmt_line`: each cell is rendered as
`"| " + padded-cell + " "`, the line closed by `"|"` and a newline. `pred`
receives the column index and that column's display width. -/
def fmt_line (t : MarkdownTable) (pred : Nat → Nat → String) : String :=
  String.join ((List.range (t.cols.getD 0)).map (fun col =>
    let len := (t.col_len col).getD 0
    "| " ++ padTo (pred col len) len ++ " ")) ++ "|\n"

/-- The Rust `Display` implementation for `MarkdownTable`: header line and dash
separator line when a header is present, then one line per data row in order. -/
def render (t : MarkdownTable) : String :=
  (match t.header with
   | some header =>
     t.fmt_line (fun col _len => header.cells.getD col "") ++
     t.fmt_line (fun _col len => String.mk (List.replicate len '-'))
   | none => "") ++
  String.join (t.rows.map (fun row =>
    t.fmt_line (fun col _len => row.cells.getD col "")))

end MarkdownTable

/-- A table reached from `t` by a finite sequence of successful `add_row`
calls (each returning `Ok(())`, none panicking). -/
inductive Reachable : MarkdownTable → MarkdownTable → Prop
  | refl (t : MarkdownTable) : Reachable t t
  | step {t u v : MarkdownTable} (r : TableRow) :
      Reachable t u → u.add_row r = some (.ok (), v) → Reachable t v

namespace MarkdownTable

/-- A row whose cell count equals the reference row's passes `validate_row_length`. -/
theorem validate_eq_ok (ref row : TableRow)
    (h : row.cells.length = ref.cells.length) :
    validate_row_length ref row = .ok () := by
  simp [validate_row_length, h]

/-- A row whose cell count differs from the reference row's fails
`validate_row_length` with `InvalidRowLength(reference count, row count)`. -/
theorem validate_eq_error (ref row : TableRow)
    (h : row.cells.length ≠ ref.cells.length) :
    validate_row_length ref row =
      .error (.InvalidRowLength ref.cells.length row.cells.length) := by
  simp [validate_row_length, Ne.symm h]

/-- Inversion: `validate_row_length` only succeeds on equal cell counts. -/
theorem length_eq_of_validate_ok (ref row : TableRow)
    (h : validate_row_length ref row = .ok ()) :
    row.cells.length = ref.cells.length := by
  by_contra hne
  rw [validate_eq_error ref row hne] at h
  exact Except.noConfusion h

/-- The construction loop succeeds when every row matches the reference width. -/
theorem validateAll_ok_of (ref : TableRow) (l : List TableRow)
    (h : ∀ r ∈ l, r.cells.length = ref.cells.length) :
    validateAll ref l = .ok () := by
  induction l with
  | nil => rfl
  | cons r rs ih =>
    simp only [validateAll, validate_eq_ok ref r (h r (by simp))]
    exact ih (fun x hx => h x (by simp [hx]))

/-- Inversion: a successful construction loop means every row matched. -/
theorem mem_length_of_validateAll_ok (ref : TableRow) (l : List TableRow)
    (h : validateAll ref l = .ok ()) :
    ∀ r ∈ l, r.cells.length = ref.cells.length := by
  induction l with
  | nil => intro r hr; exact absurd hr (List.not_mem_nil r)
  | cons r rs ih =>
    intro x hx
    unfold validateAll at h
    cases hv : validate_row_length ref r with
    | error e => rw [hv] at h; exact Except.noConfusion h
    | ok u =>
      rw [hv] at h
      rcases List.mem_cons.mp hx with hxr | hxs
      · subst hxr
        cases u
        exact length_eq_of_validate_ok ref x hv
      · exact ih h x hxs

/-- Fail-fast: the construction loop reports the first mismatching row. -/
theorem validateAll_first_error (ref r : TableRow) (pre post : List TableRow)
    (hpre : ∀ x ∈ pre, x.cells.length = ref.cells.length)
    (hr : r.cells.length ≠ ref.cells.length) :
    validateAll ref (pre ++ r :: post) =
      .error (.InvalidRowLength ref.cells.length r.cells.length) := by
  induction pre with
  | nil =>
    simp only [List.nil_append, validateAll, validate_eq_error ref r hr]
  | cons p ps ih =>
    simp only [List.cons_append, validateAll,
      validate_eq_ok ref p (hpre p (by simp))]
    exact ih (fun x hx => hpre x (by simp [hx]))

/-- The construction loop either succeeds or fails with `InvalidRowLength`. -/
theorem validateAll_ok_or_invalid (ref : TableRow) (l : List TableRow) :
    validateAll ref l = .ok () ∨
      ∃ e a, validateAll ref l = .error (.InvalidRowLength e a) := by
  induction l with
  | nil => exact Or.inl rfl
  | cons r rs ih =>
    by_cases h : r.cells.length = ref.cells.length
    · simpa only [validateAll, validate_eq_ok ref r h] using ih
    · exact Or.inr ⟨ref.cells.length, r.cells.length,
        by simp only [validateAll, validate_eq_error ref r h]⟩

/-- When the table has an established width, the reference row used by
`add_row` exists and has exactly that many cells. -/
theorem referenceRow_of_cols (t : MarkdownTable) (w : Nat)
    (hw : t.cols = some w) :
    ∃ ref, t.referenceRow = some ref ∧ ref.cells.length = w := by
  obtain ⟨h, rows⟩ := t
  cases h with
  | some hd =>
    refine ⟨hd, rfl, ?_⟩
    have := hw
    simp only [cols, Option.some.injEq] at this
    exact this
  | none =>
    cases rows with
    | nil => simp [cols] at hw
    | cons r0 rest =>
      refine ⟨r0, rfl, ?_⟩
      have := hw
      simp only [cols, List.head?, Option.map, Option.some.injEq] at this
      exact this

end MarkdownTable

namespace MarkdownTable

/-- The width-maximising fold of `MarkdownTable::col_len` dominates the
accumulator and every row's cell byte length, and its value is the
accumulator or one of those lengths. -/
theorem width_foldl_spec (col : Nat) (l : List TableRow) (a : Nat) :
    a ≤ l.foldl
        (fun acc curr => if acc < curr.col_len col then curr.col_len col else acc) a ∧
    (∀ r ∈ l, r.col_len col ≤ l.foldl
        (fun acc curr => if acc < curr.col_len col then curr.col_len col else acc) a) ∧
    (l.foldl
        (fun acc curr => if acc < curr.col_len col then curr.col_len col else acc) a = a ∨
      ∃ r ∈ l, l.foldl
        (fun acc curr => if acc < curr.col_len col then curr.col_len col else acc) a =
          r.col_len col) := by
  induction l generalizing a with
  | nil =>
    refine ⟨Nat.le_refl a, ?_, Or.inl rfl⟩
    intro r hr
    exact absurd hr (List.not_mem_nil r)
  | cons r rs ih =>
    simp only [List.foldl_cons]
    obtain ⟨h1, h2, h3⟩ := ih (if a < r.col_len col then r.col_len col else a)
    have hstep : a ≤ (if a < r.col_len col then r.col_len col else a) ∧
        r.col_len col ≤ (if a < r.col_len col then r.col_len col else a) := by
      by_cases hlt : a < r.col_len col
      · simp only [if_pos hlt]
        omega
      · simp only [if_neg hlt]
        omega
    refine ⟨Nat.le_trans hstep.1 h1, ?_, ?_⟩
    · intro x hx
      rcases List.mem_cons.mp hx with hxr | hxs
      · subst hxr; exact Nat.le_trans hstep.2 h1
      · exact h2 x hxs
    · rcases h3 with heq | ⟨x, hx, hfx⟩
      · by_cases hlt : a < r.col_len col
        · refine Or.inr ⟨r, by simp, ?_⟩
          rw [heq]
          simp [hlt]
        · refine Or.inl ?_
          rw [heq]
          simp [hlt]
      · exact Or.inr ⟨x, by simp [hx], hfx⟩

/-- A string's character count never exceeds its UTF-8 byte count. -/
theorem length_le_utf8ByteSize (s : String) : s.length ≤ s.utf8ByteSize := by
  obtain ⟨l⟩ := s
  rw [String.utf8ByteSize_mk, String.length_mk]
  induction l with
  | nil => simp
  | cons c cs ih =>
    simp only [String.utf8Len_cons, List.length_cons]
    have := Char.utf8Size_pos c
    omega

/-- A table returned by `MarkdownTable::new` stores the given header and rows
and satisfies the width invariant. -/
theorem new_ok_iff (h : Option TableRow) (rows : List TableRow) (t : MarkdownTable)
    (hok : new h rows = .ok t) :
    t = ⟨h, rows⟩ ∧ ∀ w, t.cols = some w → ∀ r ∈ t.rows, r.cells.length = w := by
  cases rows with
  | nil =>
    have ht : t = ⟨h, []⟩ := by
      simpa [new] using hok.symm
    subst ht
    exact ⟨rfl, fun w _ r hr => absurd hr (List.not_mem_nil r)⟩
  | cons r0 rest =>
    simp only [new] at hok
    cases hv : validateAll (h.getD r0) (r0 :: rest) with
    | error e => rw [hv] at hok; exact Except.noConfusion hok
    | ok u =>
      rw [hv] at hok
      have ht : t = ⟨h, r0 :: rest⟩ := (Except.ok.inj hok).symm
      subst ht
      refine ⟨rfl, fun w hw r hr => ?_⟩
      cases u
      have hlen := mem_length_of_validateAll_ok _ _ hv r hr
      cases h with
      | some hd =>
        simp only [cols, Option.some.injEq] at hw
        simpa [Option.getD, hw] using hlen
      | none =>
        simp only [cols, List.head?, Option.map, Option.some.injEq] at hw
        simpa [Option.getD, hw] using hlen

end MarkdownTable

namespace MarkdownTable

/-- Destructing a successful `add_row`: the header is unchanged, the row is
appended at the end, the established width is unchanged, and the new row
matched that width. -/
theorem add_row_ok_dest (t v : MarkdownTable) (row : TableRow)
    (h : t.add_row row = some (.ok (), v)) :
    v.header = t.header ∧ v.rows = t.rows ++ [row] ∧ v.cols = t.cols ∧
      (∀ w, t.cols = some w → row.cells.length = w) := by
  cases href : t.referenceRow with
  | none => simp [add_row, href] at h
  | some ref =>
    cases hv : validate_row_length ref row with
    | error e => simp [add_row, href, hv] at h
    | ok u =>
      cases u
      simp only [add_row, href, hv, Option.some.injEq, Prod.mk.injEq, true_and] at h
      subst h
      have hlen := length_eq_of_validate_ok ref row hv
      obtain ⟨hd, rows⟩ := t
      cases hd with
      | some hdr =>
        simp only [referenceRow] at href
        refine ⟨rfl, rfl, by simp [cols], fun w hw => ?_⟩
        simp only [cols, Option.some.injEq] at hw
        rw [hlen, ← Option.some.inj href]
        exact hw
      | none =>
        simp only [referenceRow] at href
        cases rows with
        | nil => simp at href
        | cons r0 rest =>
          simp only [List.head?, Option.some.injEq] at href
          refine ⟨rfl, rfl, by simp [cols], fun w hw => ?_⟩
          simp only [cols, List.head?, Option.map, Option.some.injEq] at hw
          rw [hlen, ← href]
          exact hw

end MarkdownTable

namespace MarkdownTable

/-- When a header is present, the established width is its cell count. -/
theorem cols_header_eq (t : MarkdownTable) (hd : TableRow) (w : Nat)
    (hhd : t.header = some hd) (hw : t.cols = some w) : hd.cells.length = w := by
  simp only [cols, hhd, Option.some.injEq] at hw
  exact hw

/-- The reference row of `new` (header, else first row) has exactly the
established width many cells. -/
theorem getD_length (h : Option TableRow) (r0 : TableRow) (rest : List TableRow)
    (w : Nat) (hw : (MarkdownTable.mk h (r0 :: rest)).cols = some w) :
    (h.getD r0).cells.length = w := by
  cases h with
  | some hd =>
    simp only [cols, Option.some.injEq] at hw
    simpa [Option.getD] using hw
  | none =>
    simp only [cols, List.head?, Option.map, Option.some.injEq] at hw
    simpa [Option.getD] using hw

end MarkdownTable

/-- Claim C1: for every table produced by a successful `MarkdownTable::new`
and extended by any sequence of successful `add_row` calls, every data row
(and the header, when present) has the same cell count as the table's
established width. -/
theorem C1_width_invariant (h : Option TableRow) (rs : List TableRow)
    (t0 t : MarkdownTable) (hnew : MarkdownTable.new h rs = .ok t0)
    (hreach : Reachable t0 t) :
    ∀ w, t.cols = some w →
      (∀ r ∈ t.rows, r.cells.length = w) ∧
      (∀ hd, t.header = some hd → hd.cells.length = w) := by
  have hinv : ∀ w, t.cols = some w → ∀ r ∈ t.rows, r.cells.length = w := by
    induction hreach with
    | refl => exact (MarkdownTable.new_ok_iff h rs _ hnew).2
    | step r hru hadd ih =>
      obtain ⟨hhd, hrows, hcols, hlen⟩ := MarkdownTable.add_row_ok_dest _ _ r hadd
      intro w hw x hx
      rw [hcols] at hw
      rw [hrows] at hx
      rcases List.mem_append.mp hx with hold | hnew2
      · exact ih w hw x hold
      · rw [List.mem_singleton.mp hnew2]
        exact hlen w hw
  intro w hw
  exact ⟨hinv w hw, fun hd hhd => MarkdownTable.cols_header_eq t hd w hhd hw⟩

/-- Witness for C1 on the table built from header `["a","b"]` and no rows,
extended by one successful `add_row` of `["c","d"]`. -/
theorem C1_witness : (TableRow.mk ["c","d"]).cells.length = 2 :=
  (C1_width_invariant (some ⟨["a","b"]⟩) []
      ⟨some ⟨["a","b"]⟩, []⟩ ⟨some ⟨["a","b"]⟩, [⟨["c","d"]⟩]⟩
      rfl (Reachable.step ⟨["c","d"]⟩ (Reachable.refl _) rfl) 2 rfl).1
    ⟨["c","d"]⟩ (by decide)

/-- Claim C2: for every table with an established width `w` and every row
whose cell count differs from `w`, `add_row` returns
`InvalidRowLength(w, row count)` and the table after the call is exactly the
table before it (same header, same row sequence). -/
theorem C2_add_row_mismatch_error (t : MarkdownTable) (row : TableRow) (w : Nat)
    (hw : t.cols = some w) (hne : row.cells.length ≠ w) :
    t.add_row row =
      some (.error (.InvalidRowLength w row.cells.length), t) := by
  obtain ⟨ref, href, hlen⟩ := MarkdownTable.referenceRow_of_cols t w hw
  have herr : MarkdownTable.validate_row_length ref row =
      .error (.InvalidRowLength ref.cells.length row.cells.length) :=
    MarkdownTable.validate_eq_error ref row (by rw [hlen]; exact hne)
  simp only [MarkdownTable.add_row, href, herr, hlen]

/-- Witness for C2: adding the one-cell row `["d"]` to a width-2 table fails
with `InvalidRowLength(2, 1)` and leaves the table unchanged. -/
theorem C2_witness :
    (MarkdownTable.mk (some ⟨["Hoi","Bye"]⟩) [⟨["a","b"]⟩]).add_row ⟨["d"]⟩ =
      some (.error (.InvalidRowLength 2 1),
        MarkdownTable.mk (some ⟨["Hoi","Bye"]⟩) [⟨["a","b"]⟩]) :=
  C2_add_row_mismatch_error _ ⟨["d"]⟩ 2 rfl (by decide)

/-- Claim C3: `MarkdownTable::new` validates every row against the reference
width in order; if all rows match it stores header and rows as given, and on
the first mismatching row it fails with `InvalidRowLength(reference width,
that row's cell count)` without producing a table. -/
theorem C3_new_fail_fast (h : Option TableRow) (rows pre post : List TableRow)
    (r : TableRow) (w : Nat) (hw : (MarkdownTable.mk h rows).cols = some w) :
    ((∀ x ∈ rows, x.cells.length = w) →
      MarkdownTable.new h rows = .ok ⟨h, rows⟩) ∧
    (rows = pre ++ r :: post → (∀ x ∈ pre, x.cells.length = w) →
      r.cells.length ≠ w →
      MarkdownTable.new h rows = .error (.InvalidRowLength w r.cells.length)) := by
  constructor
  · intro hall
    cases rows with
    | nil => rfl
    | cons r0 rest =>
      have hgetD := MarkdownTable.getD_length h r0 rest w hw
      have hv : MarkdownTable.validateAll (h.getD r0) (r0 :: rest) = .ok () :=
        MarkdownTable.validateAll_ok_of _ _
          (fun x hx => by rw [hall x hx]; exact hgetD.symm)
      simp only [MarkdownTable.new, hv]
  · intro hrows hpre hr
    cases rows with
    | nil => exact absurd hrows (by cases pre <;> simp)
    | cons r0 rest =>
      have hgetD := MarkdownTable.getD_length h r0 rest w hw
      have hv : MarkdownTable.validateAll (h.getD r0) (r0 :: rest) =
          .error (.InvalidRowLength (h.getD r0).cells.length r.cells.length) := by
        rw [hrows]
        exact MarkdownTable.validateAll_first_error _ r pre post
          (fun x hx => by rw [hpre x hx]; exact hgetD.symm)
          (by rw [hgetD]; exact hr)
      simp only [MarkdownTable.new, hv, hgetD]

/-- Witness for C3: an all-matching construction succeeds; a construction
whose second row is too wide fails with `InvalidRowLength(1, 2)`. -/
theorem C3_witness :
    MarkdownTable.new (some ⟨["H"]⟩) [⟨["a"]⟩] =
      .ok ⟨some ⟨["H"]⟩, [⟨["a"]⟩]⟩ ∧
    MarkdownTable.new (some ⟨["H"]⟩) [⟨["a"]⟩, ⟨["b","c"]⟩] =
      .error (.InvalidRowLength 1 2) :=
  ⟨(C3_new_fail_fast (some ⟨["H"]⟩) [⟨["a"]⟩] [] [] ⟨[]⟩ 1 rfl).1 (by decide),
   (C3_new_fail_fast (some ⟨["H"]⟩) [⟨["a"]⟩, ⟨["b","c"]⟩]
      [⟨["a"]⟩] [] ⟨["b","c"]⟩ 1 rfl).2 rfl (by decide) (by decide)⟩

/-- Claim C4 (amended): for every table and column index below the
established width, `col_len` returns a width `L` that is the maximum UTF-8
byte count (Rust `String::len`) over that column's data cells and, when a
header exists, its cell's byte count: `L` dominates every data cell's byte
count and the header cell's, is attained by one of them, and in particular
is never less than any individual cell's character count. -/
theorem C4_display_width_max (t : MarkdownTable) (w c : Nat)
    (hw : t.cols = some w) (hc : c < w) :
    ∃ L, t.col_len c = some L ∧
      (∀ r ∈ t.rows, r.col_len c ≤ L) ∧
      (∀ hd, t.header = some hd → (hd.cells.getD c "").utf8ByteSize ≤ L) ∧
      ((∃ r ∈ t.rows, r.col_len c = L) ∨
        ∃ hd, t.header = some hd ∧ (hd.cells.getD c "").utf8ByteSize = L) ∧
      (∀ r ∈ t.rows, (r.cells.getD c "").length ≤ L) := by
  have hnle : ¬ w ≤ c := Nat.not_le.mpr hc
  obtain ⟨-, hB, hC⟩ := MarkdownTable.width_foldl_spec c t.rows 0
  cases hh : t.header with
  | some hd =>
    have hcl : t.col_len c =
        some (if (hd.cells.getD c "").utf8ByteSize <
            t.rows.foldl
              (fun acc curr => if acc < curr.col_len c then curr.col_len c else acc) 0 then
            t.rows.foldl
              (fun acc curr => if acc < curr.col_len c then curr.col_len c else acc) 0
          else (hd.cells.getD c "").utf8ByteSize) := by
      simp only [MarkdownTable.col_len, hw, hh, if_neg hnle]
      split <;> rfl
    by_cases hcmp : (hd.cells.getD c "").utf8ByteSize <
        t.rows.foldl
          (fun acc curr => if acc < curr.col_len c then curr.col_len c else acc) 0
    · rw [if_pos hcmp] at hcl
      refine ⟨_, hcl, hB, ?_, ?_, ?_⟩
      · intro hd2 hhd2
        cases Option.some.inj hhd2
        omega
      · rcases hC with h0 | ⟨r, hr, hfr⟩
        · omega
        · exact Or.inl ⟨r, hr, hfr.symm⟩
      · intro r hr
        exact le_trans (MarkdownTable.length_le_utf8ByteSize _) (hB r hr)
    · rw [if_neg hcmp] at hcl
      refine ⟨_, hcl, ?_, ?_, ?_, ?_⟩
      · intro r hr
        exact le_trans (hB r hr) (Nat.not_lt.mp hcmp)
      · intro hd2 hhd2
        cases Option.some.inj hhd2
        exact le_refl _
      · exact Or.inr ⟨hd, rfl, rfl⟩
      · intro r hr
        exact le_trans (MarkdownTable.length_le_utf8ByteSize _)
          (le_trans (hB r hr) (Nat.not_lt.mp hcmp))
  | none =>
    have hcl : t.col_len c =
        some (t.rows.foldl
          (fun acc curr => if acc < curr.col_len c then curr.col_len c else acc) 0) := by
      simp only [MarkdownTable.col_len, hw, hh, if_neg hnle]
    have hne2 : t.rows ≠ [] := by
      intro h0
      have hw2 := hw
      simp [MarkdownTable.cols, hh, h0] at hw2
    obtain ⟨r0, hr0⟩ := List.exists_mem_of_ne_nil t.rows hne2
    refine ⟨_, hcl, hB, ?_, ?_, ?_⟩
    · intro hd2 hhd2
      exact Option.noConfusion hhd2
    · rcases hC with h0 | ⟨r, hr, hfr⟩
      · refine Or.inl ⟨r0, hr0, ?_⟩
        have := hB r0 hr0
        omega
      · exact Or.inl ⟨r, hr, hfr.symm⟩
    · intro r hr
      exact le_trans (MarkdownTable.length_le_utf8ByteSize _) (hB r hr)

/-- Counterexample to C4 as stated: for the headerless table with single row
`["\u00e9"]`, the display width of column 0 is 2 (the UTF-8 byte count of
"\u00e9"), not the maximum character (codepoint) count, which is 1. -/
theorem C4_counterexample :
    (MarkdownTable.mk none [⟨["é"]⟩]).col_len 0 = some 2 ∧
    ((⟨["é"]⟩ : TableRow).cells.getD 0 "").length = 1 := by
  constructor
  · decide
  · decide

/-- Witness for C4 (amended) on the scenario-1 table: column 0's width
dominates the byte count of cell "Jessica". -/
theorem C4_witness :
    (TableRow.mk ["Jessica","28"]).col_len 0 ≤ 7 := by
  obtain ⟨L, hL, hrows, -, -, -⟩ :=
    C4_display_width_max (MarkdownTable.mk (some ⟨["Name","Age"]⟩)
      [⟨["Jessica","28"]⟩, ⟨["Dennis","22"]⟩]) 2 0 (by decide) (by decide)
  have h7 : (MarkdownTable.mk (some ⟨["Name","Age"]⟩)
      [⟨["Jessica","28"]⟩, ⟨["Dennis","22"]⟩]).col_len 0 = some 7 := by decide
  rw [h7] at hL
  rw [Option.some.inj hL]
  exact hrows ⟨["Jessica","28"]⟩ (by decide)

/-- Claim C5: rendering the table with header `["Name","Age"]` and rows
`[["Jessica","28"],["Dennis","22"]]` produces exactly the header line, the
dash separator line, and one line per data row, each cell left-aligned and
padded to the column display width, wrapped in pipes, newline-terminated. -/
theorem C5_concrete_render :
    (MarkdownTable.mk (some ⟨["Name","Age"]⟩)
        [⟨["Jessica","28"]⟩, ⟨["Dennis","22"]⟩]).render =
      "| Name    | Age |\n| ------- | --- |\n| Jessica | 28  |\n| Dennis  | 22  |\n" := by
  decide

/-- Claim C6: a table with no header renders only its data-row lines in
insertion order, with no header or separator line; concretely, the
headerless table with single row `["e","fg"]` has established width 2,
column 1 display width 2, and renders to that one data line. -/
theorem C6_no_header_render (t : MarkdownTable) (hh : t.header = none) :
    t.render = String.join (t.rows.map (fun row =>
        t.fmt_line (fun col _len => row.cells.getD col ""))) ∧
    (t = ⟨none, [⟨["e","fg"]⟩]⟩ →
      t.cols = some 2 ∧ t.col_len 1 = some 2 ∧ t.render = "| e | fg |\n") := by
  constructor
  · simp only [MarkdownTable.render, hh]
    exact String.empty_append _
  · intro ht
    subst ht
    refine ⟨by decide, by decide, by decide⟩

/-- Witness for C6 at the concrete headerless table `[["e","fg"]]`. -/
theorem C6_witness :
    (MarkdownTable.mk none [⟨["e","fg"]⟩]).cols = some 2 ∧
    (MarkdownTable.mk none [⟨["e","fg"]⟩]).col_len 1 = some 2 ∧
    (MarkdownTable.mk none [⟨["e","fg"]⟩]).render = "| e | fg |\n" :=
  (C6_no_header_render (MarkdownTable.mk none [⟨["e","fg"]⟩]) rfl).2 rfl

/-- Claim C7: for every table with established width `w` and every row of
exactly `w` cells, `add_row` succeeds and the resulting table has the same
header and the previous rows followed by the new row at the end. -/
theorem C7_add_row_success_appends (t : MarkdownTable) (row : TableRow) (w : Nat)
    (hw : t.cols = some w) (heq : row.cells.length = w) :
    t.add_row row = some (.ok (), ⟨t.header, t.rows ++ [row]⟩) := by
  obtain ⟨ref, href, hlen⟩ := MarkdownTable.referenceRow_of_cols t w hw
  have hok : MarkdownTable.validate_row_length ref row = .ok () :=
    MarkdownTable.validate_eq_ok ref row (by rw [hlen]; exact heq)
  simp only [MarkdownTable.add_row, href, hok]

/-- Witness for C7: adding `["c","d"]` to a width-2 table succeeds and
appends it after the existing rows. -/
theorem C7_witness :
    (MarkdownTable.mk (some ⟨["Hoi","Bye"]⟩) [⟨["a","b"]⟩]).add_row ⟨["c","d"]⟩ =
      some (.ok (),
        MarkdownTable.mk (some ⟨["Hoi","Bye"]⟩) [⟨["a","b"]⟩, ⟨["c","d"]⟩]) :=
  C7_add_row_success_appends _ ⟨["c","d"]⟩ 2 rfl (by decide)

/-- Claim C8: when a header is supplied, `MarkdownTable::new` never returns
`NoRowsSpecified`: the result is `Ok` or an `InvalidRowLength` error, for any
choice of rows. -/
theorem C8_header_never_NoRowsSpecified (hd : TableRow) (rows : List TableRow) :
    (∃ t, MarkdownTable.new (some hd) rows = .ok t) ∨
      ∃ e a, MarkdownTable.new (some hd) rows =
        .error (.InvalidRowLength e a) := by
  cases rows with
  | nil => exact Or.inl ⟨⟨some hd, []⟩, rfl⟩
  | cons r0 rest =>
    rcases MarkdownTable.validateAll_ok_or_invalid ((some hd).getD r0) (r0 :: rest)
      with hok | ⟨e, a, herr⟩
    · exact Or.inl ⟨⟨some hd, r0 :: rest⟩, by simp only [MarkdownTable.new, hok]⟩
    · exact Or.inr ⟨e, a, by simp only [MarkdownTable.new, herr]⟩

/-- Claim C9: rendering is deterministic. Rendering is a pure function of the
table's observable state (header and rows), so two renderings of the same
unmutated table produce identical output. -/
theorem C9_render_deterministic (t1 t2 : MarkdownTable)
    (hh : t1.header = t2.header) (hr : t1.rows = t2.rows) :
    t1.render = t2.render := by
  obtain ⟨h1, r1⟩ := t1
  obtain ⟨h2, r2⟩ := t2
  cases hh
  cases hr
  rfl

/-- Witness for C9 at a concrete table. -/
theorem C9_witness :
    (MarkdownTable.mk none [⟨["e","fg"]⟩]).render =
      (MarkdownTable.mk none [⟨["e","fg"]⟩]).render :=
  C9_render_deterministic _ _ rfl rfl

/-- Claim C10: `MarkdownTable::new` with no header and no rows succeeds with
an empty table, but `add_row` on that table indexes `rows[0]` and panics
(modelled by `none`); `add_row` returns without panicking whenever the table
has a header or at least one data row. -/
theorem C10_empty_table_add_row_panics :
    MarkdownTable.new none [] = .ok ⟨none, []⟩ ∧
    (∀ row, (MarkdownTable.mk none []).add_row row = none) ∧
    (∀ t : MarkdownTable, ∀ row : TableRow,
      t.header.isSome = true ∨ t.rows ≠ [] → (t.add_row row).isSome = true) := by
  refine ⟨rfl, fun row => rfl, fun t row h => ?_⟩
  obtain ⟨hd, rows⟩ := t
  cases hd with
  | some hdr =>
    cases hv : MarkdownTable.validate_row_length hdr row with
    | error e => simp [MarkdownTable.add_row, MarkdownTable.referenceRow, hv]
    | ok u =>
      cases u
      simp [MarkdownTable.add_row, MarkdownTable.referenceRow, hv]
  | none =>
    cases rows with
    | nil =>
      rcases h with h1 | h2
      · simp at h1
      · simp at h2
    | cons r0 rest =>
      cases hv : MarkdownTable.validate_row_length r0 row with
      | error e => simp [MarkdownTable.add_row, MarkdownTable.referenceRow, hv]
      | ok u =>
        cases u
        simp [MarkdownTable.add_row, MarkdownTable.referenceRow, hv]

/-- Witness for C10: `add_row` does not panic on a headerless table with one
row. -/
theorem C10_witness :
    ((MarkdownTable.mk none [⟨["x"]⟩]).add_row ⟨["y"]⟩).isSome = true :=
  C10_empty_table_add_row_panics.2.2 _ _ (Or.inr (by decide))
